import Mathlib

/-!
Verification of the material classification table and the metric
interpolation routines of the mmg tetrahedral remesher, against their
natural-language specification.  Part A embeds `src/common/mmg2.c`
(classification table `InvMat`, split policy); Part B embeds
`src/mmg3d/intmet.c` (anisotropic metric interpolation).  Real arithmetic
is modelled exactly over the rationals; C `int` arithmetic over `Int`,
with C truncated division/remainder rendered as `Int.tdiv`/`Int.tmod`.
-/

namespace Mmg

/-! ### Part A: material classification table (`src/common/mmg2.c`) -/

/-- Material descriptor (`MMG5_Mat`): one entry per user-declared material,
with the original reference `ref`, the split flag `dospl`, and, when
splitting, the interior child reference `rin` and exterior child reference
`rex`. -/
structure MMG5_Mat where
  dospl : Bool
  ref : Int
  rin : Int
  rex : Int
deriving DecidableEq

/-- Modelled from the spec: the split-role constants `MG_PLUS` and
`MG_MINUS` are defined in `mmgcommon.h`, which is not among the provided
sources.  The spec requires the role tags to be `NONE = 0` plus two
mutually exclusive small nonzero constants fitting the low two bits of the
packed lookup entry. -/
def MG_PLUS : Int := 2

/-- Modelled from the spec: see `MG_PLUS`. -/
def MG_MINUS : Int := 3

/-- Classification table (`MMG5_InvMat`): span `[offset, offset+size)` and
the dense lookup array, modelled as a total function from array index to
the stored packed integer; indices that are never stored to read as the
`calloc` value 0. -/
structure MMG5_InvMat where
  offset : Int
  size : Int
  lookup : Int → Int

/-- Embedding of `MMG5_InvMat_key`: index of reference `ref` in the lookup
array. -/
def MMG5_InvMat_key (pim : MMG5_InvMat) (ref : Int) : Int :=
  ref - pim.offset

/-- Function update standing for the C array store `lookup[k] = v`. -/
def storeAt (f : Int → Int) (k v : Int) : Int → Int :=
  fun x => if x = k then v else f x

/-- Embedding of `MMG5_InvMat_set`: store the `dospl` attribute at the
parent material's own slot and, when splitting, the packed
`4*(ref+1)+tag` entries at the two child slots (in this order, so a later
write to a colliding slot wins). -/
def MMG5_InvMat_set (pim : MMG5_InvMat) (pm : MMG5_Mat) : MMG5_InvMat :=
  let l0 := storeAt pim.lookup (MMG5_InvMat_key pim pm.ref) (if pm.dospl then 1 else 0)
  let l1 := if pm.dospl then
      storeAt (storeAt l0 (MMG5_InvMat_key pim pm.rin) (4*(pm.ref+1)+MG_MINUS))
        (MMG5_InvMat_key pim pm.rex) (4*(pm.ref+1)+MG_PLUS)
    else l0
  { pim with lookup := l1 }

/-- Embedding of `MMG5_InvMat_getParent`: the parent is stored as
`4*(ref+1)`, recovered by C truncated division. -/
def MMG5_InvMat_getParent (pim : MMG5_InvMat) (ref : Int) : Int :=
  (pim.lookup (MMG5_InvMat_key pim ref)).tdiv 4 - 1

/-- Embedding of `MMG5_InvMat_getTag`: the split role is the C remainder
of the packed entry by 4. -/
def MMG5_InvMat_getTag (pim : MMG5_InvMat) (ref : Int) : Int :=
  (pim.lookup (MMG5_InvMat_key pim ref)).tmod 4

/-- The C `INT_MAX` initial value of the minimum-reference scan in
`MMG5_MultiMat_init`. -/
def INT_MAX : Int := 2147483647

/-- The max/min reference scan of `MMG5_MultiMat_init` (refmax starts at
0, refmin at `INT_MAX`; child references are scanned only for splitting
materials).  First component: refmax; second: refmin. -/
def refBounds (mats : List MMG5_Mat) : Int × Int :=
  mats.foldl
    (fun rb pm =>
      let rb1 := (max rb.1 pm.ref, min rb.2 pm.ref)
      if pm.dospl then (max (max rb1.1 pm.rin) pm.rex, min (min rb1.2 pm.rin) pm.rex)
      else rb1)
    (0, INT_MAX)

/-- The table construction of `MMG5_MultiMat_init`: zero-initialized
lookup spanning `[refmin, refmax]`, then one `MMG5_InvMat_set` per
declared material, in declaration order. -/
def MMG5_MultiMat_table (mats : List MMG5_Mat) : MMG5_InvMat :=
  List.foldl MMG5_InvMat_set
    { offset := (refBounds mats).2,
      size := (refBounds mats).1 - (refBounds mats).2 + 1,
      lookup := fun _ => 0 } mats

/-- Embedding of `MMG5_MultiMat_init`: nothing to do without materials
(`some none`); fewer materials supplied than declared is the
incomplete-configuration failure (`none`); otherwise the table is built. -/
def MMG5_MultiMat_init (nmat nmati : Nat) (mats : List MMG5_Mat) :
    Option (Option MMG5_InvMat) :=
  if nmat = 0 then some none
  else if nmati < nmat then none
  else some (some (MMG5_MultiMat_table mats))

/-- Compatibility of two distinct material declarations: distinct original
references, and, when both split, disjoint child reference pairs. -/
def matCompat (a b : MMG5_Mat) : Prop :=
  a.ref ≠ b.ref ∧ (a.dospl = true → b.dospl = true →
    a.rin ≠ b.rin ∧ a.rin ≠ b.rex ∧ a.rex ≠ b.rin ∧ a.rex ≠ b.rex)

instance (a b : MMG5_Mat) : Decidable (matCompat a b) := by
  unfold matCompat
  infer_instance

theorem matCompat_symm {a b : MMG5_Mat} (h : matCompat a b) : matCompat b a := by
  refine ⟨h.1.symm, fun hb ha => ?_⟩
  have h4 := h.2 ha hb
  exact ⟨h4.1.symm, h4.2.2.1.symm, h4.2.1.symm, h4.2.2.2.symm⟩

/-- Modelled from the spec: the configuration validation that must run
before table construction (`MMG5_InvMat_set` notes that duplicate child
references "must have already been checked"; the checking code is not
among the provided sources).  Per the data-model invariants, original
references are pairwise distinct and no two distinct materials declare the
same child reference. -/
def MMG5_MultiMat_validate (mats : List MMG5_Mat) : Bool :=
  decide (List.Pairwise matCompat mats)

/-- Table construction guarded by the spec-modelled validation: the
configuration is rejected before any table is built. -/
def MMG5_MultiMat_build (mats : List MMG5_Mat) : Option MMG5_InvMat :=
  if MMG5_MultiMat_validate mats then some (MMG5_MultiMat_table mats) else none

/-- Embedding of `MMG5_isSplit`: scan the declared material list for
`ref`; a non-splitting match returns 0 without touching the out
parameters (`none`), a splitting match returns its child references, and
an undeclared reference splits with the default labels
`MG_MINUS`/`MG_PLUS`. -/
def MMG5_isSplit (mats : List MMG5_Mat) (ref : Int) : Bool × Option (Int × Int) :=
  match mats with
  | [] => (true, some (MG_MINUS, MG_PLUS))
  | pm :: rest =>
    if pm.ref = ref then
      if pm.dospl then (true, some (pm.rin, pm.rex)) else (false, none)
    else MMG5_isSplit rest ref

/-- Embedding of `MMG5_isNotSplit`: without multi-material mode the
material splits by default; otherwise the entity cannot be split exactly
when its lookup tag is nonzero. -/
def MMG5_isNotSplit (nmat : Nat) (pim : MMG5_InvMat) (ref : Int) : Bool :=
  if nmat = 0 then false
  else if MMG5_InvMat_getTag pim ref = 0 then false
  else true

/-- Embedding of `MMG5_isLevelSet`: the two references straddle the level
set exactly when their tags sum to `MG_MINUS + MG_PLUS` (the `int8_t`
truncation in the C code is the identity on tag values, which lie in
`(-4, 4)`). -/
def MMG5_isLevelSet (pim : MMG5_InvMat) (ref0 ref1 : Int) : Bool :=
  if MMG5_InvMat_getTag pim ref0 + MMG5_InvMat_getTag pim ref1 = MG_MINUS + MG_PLUS
  then true else false

/-- Embedding of `MMG5_getIniRef`: with no materials the function returns
0; otherwise it returns the stored parent, or `ref` itself when no parent
is recorded (`-1`). -/
def MMG5_getIniRef (nmat : Nat) (pim : MMG5_InvMat) (ref : Int) : Int :=
  if nmat = 0 then 0
  else if MMG5_InvMat_getParent pim ref = -1 then ref
  else MMG5_InvMat_getParent pim ref

/-! Concrete material lists used by witnesses and counterexamples.
`matsDemo` is the end-to-end scenario of the spec; `matsChildAsOther` has
a child reference equal to a different material's original reference;
`matsDupChild` has two distinct materials sharing an interior child. -/

def matsDemo : List MMG5_Mat := [⟨true, 1, 10, 11⟩, ⟨false, 2, 0, 0⟩]

def matsChildAsOther : List MMG5_Mat := [⟨true, 1, 2, 3⟩, ⟨false, 2, 9, 9⟩]

def matsDupChild : List MMG5_Mat := [⟨true, 1, 10, 11⟩, ⟨true, 2, 10, 12⟩]

/-! #### Claim C5 -/

/-- Claim C5: `MMG5_isLevelSet` returns true exactly when the two
references' roles are `{MG_MINUS, MG_PLUS}` in some order; every other
tag combination yields false.  Proved for every table and pair of
references (in particular for every built table and references in its
range). -/
theorem isLevelSet_iff_minus_plus (pim : MMG5_InvMat) (refA refB : Int) :
    MMG5_isLevelSet pim refA refB = true ↔
      ((MMG5_InvMat_getTag pim refA = MG_MINUS ∧ MMG5_InvMat_getTag pim refB = MG_PLUS) ∨
       (MMG5_InvMat_getTag pim refA = MG_PLUS ∧ MMG5_InvMat_getTag pim refB = MG_MINUS)) := by
  have hA : MMG5_InvMat_getTag pim refA < 4 :=
    Int.tmod_lt_of_pos _ (by norm_num)
  have hB : MMG5_InvMat_getTag pim refB < 4 :=
    Int.tmod_lt_of_pos _ (by norm_num)
  unfold MMG5_isLevelSet
  constructor
  · intro h
    by_cases hc : MMG5_InvMat_getTag pim refA + MMG5_InvMat_getTag pim refB =
        MG_MINUS + MG_PLUS
    · unfold MG_MINUS MG_PLUS at hc ⊢
      omega
    · rw [if_neg hc] at h
      exact absurd h (by simp)
  · intro h
    have : MMG5_InvMat_getTag pim refA + MMG5_InvMat_getTag pim refB =
        MG_MINUS + MG_PLUS := by
      unfold MG_MINUS MG_PLUS at h ⊢
      omega
    rw [if_pos this]

/-! #### Claim C6 -/

/-- Claim C6 counterexample: in the table built from the spec's demo
materials, reference 10 has role `MG_MINUS` (nonzero), yet
`MMG5_isNotSplit` returns true — the code returns true exactly when the
role is *not* `NONE`, refuting the claimed "true iff role = NONE". -/
theorem isNotSplit_claim_refuted :
    ¬(MMG5_isNotSplit 2 (MMG5_MultiMat_table matsDemo) 10 = true ↔
      MMG5_InvMat_getTag (MMG5_MultiMat_table matsDemo) 10 = 0) := by
  decide

/-- Claim C6 (amended): with zero declared materials `MMG5_isNotSplit`
returns false; with multi-material mode active it returns true if and
only if the reference's role tag is *not* `NONE` (nonzero). -/
theorem isNotSplit_spec (nmat : Nat) (pim : MMG5_InvMat) (ref : Int) :
    MMG5_isNotSplit 0 pim ref = false ∧
    (nmat ≠ 0 →
      (MMG5_isNotSplit nmat pim ref = true ↔ MMG5_InvMat_getTag pim ref ≠ 0)) := by
  constructor
  · rfl
  · intro hn
    unfold MMG5_isNotSplit
    rw [if_neg hn]
    by_cases h : MMG5_InvMat_getTag pim ref = 0
    · rw [if_pos h]
      simp [h]
    · rw [if_neg h]
      simp [h]

/-- Claim C6 witness: the amended characterization evaluated on the demo
table at reference 10 (role `MG_MINUS`). -/
theorem isNotSplit_spec_witness :
    MMG5_isNotSplit 2 (MMG5_MultiMat_table matsDemo) 10 = true ↔
      MMG5_InvMat_getTag (MMG5_MultiMat_table matsDemo) 10 ≠ 0 :=
  (isNotSplit_spec 2 (MMG5_MultiMat_table matsDemo) 10).2 (by decide)

/-! #### Claim C7 -/

/-- Claim C7: evaluation of `MMG5_getIniRef` at the failing input.  With
no multi-material configuration (`nmat = 0`) the code returns 0 for
reference 5, while both the specification and the function's own
documentation ("return ... `ref` if not founded") require the identity,
i.e. 5. -/
theorem getIniRef_single_material_eval :
    MMG5_getIniRef 0 (MMG5_MultiMat_table []) 5 = 0 ∧ (0 : Int) ≠ 5 := by
  decide

/-! #### Slot-level description of table construction

`matWrite off pm x` is the last value one `MMG5_InvMat_set` call for
material `pm` leaves at lookup index `x` (the C function writes the `ref`
slot, then `rin`, then `rex`, so on collisions the later write wins), or
`none` when the call does not touch index `x`. -/

def matWrite (off : Int) (pm : MMG5_Mat) (x : Int) : Option Int :=
  if pm.dospl = true ∧ x = pm.rex - off then some (4*(pm.ref+1)+MG_PLUS)
  else if pm.dospl = true ∧ x = pm.rin - off then some (4*(pm.ref+1)+MG_MINUS)
  else if x = pm.ref - off then some (if pm.dospl then 1 else 0)
  else none

/-- One step of the scalar write fold at a fixed index. -/
def applyWrite (off x : Int) (acc : Int) (pm : MMG5_Mat) : Int :=
  (matWrite off pm x).getD acc

theorem MMG5_InvMat_set_offset (pim : MMG5_InvMat) (pm : MMG5_Mat) :
    (MMG5_InvMat_set pim pm).offset = pim.offset := rfl

theorem MMG5_InvMat_set_lookup (pim : MMG5_InvMat) (pm : MMG5_Mat) (x : Int) :
    (MMG5_InvMat_set pim pm).lookup x =
      (matWrite pim.offset pm x).getD (pim.lookup x) := by
  by_cases hd : pm.dospl = true <;>
    simp only [MMG5_InvMat_set, matWrite, MMG5_InvMat_key, hd] <;>
    split_ifs <;>
    simp_all [storeAt, sub_left_inj]

theorem foldl_set_lookup (mats : List MMG5_Mat) (pim : MMG5_InvMat) (x : Int) :
    (List.foldl MMG5_InvMat_set pim mats).lookup x =
      List.foldl (applyWrite pim.offset x) (pim.lookup x) mats := by
  induction mats generalizing pim with
  | nil => rfl
  | cons pm rest ih =>
    simp only [List.foldl_cons]
    rw [ih (MMG5_InvMat_set pim pm), MMG5_InvMat_set_offset, MMG5_InvMat_set_lookup]
    rfl

theorem foldl_set_offset (mats : List MMG5_Mat) (pim : MMG5_InvMat) :
    (List.foldl MMG5_InvMat_set pim mats).offset = pim.offset := by
  induction mats generalizing pim with
  | nil => rfl
  | cons pm rest ih =>
    simp only [List.foldl_cons]
    rw [ih (MMG5_InvMat_set pim pm), MMG5_InvMat_set_offset]

theorem table_offset (mats : List MMG5_Mat) :
    (MMG5_MultiMat_table mats).offset = (refBounds mats).2 :=
  foldl_set_offset mats _

theorem table_lookup_eq (mats : List MMG5_Mat) (x : Int) :
    (MMG5_MultiMat_table mats).lookup x =
      List.foldl (applyWrite (refBounds mats).2 x) 0 mats :=
  foldl_set_lookup mats _ x

theorem foldl_applyWrite_none (mats : List MMG5_Mat) (off x : Int)
    (h : ∀ pm ∈ mats, matWrite off pm x = none) (acc : Int) :
    List.foldl (applyWrite off x) acc mats = acc := by
  induction mats generalizing acc with
  | nil => rfl
  | cons pm rest ih =>
    simp only [List.foldl_cons]
    have hacc : applyWrite off x acc pm = acc := by
      unfold applyWrite
      rw [h pm (List.mem_cons_self pm rest)]
      rfl
    rw [hacc]
    exact ih (fun q hq => h q (List.mem_cons_of_mem pm hq)) acc

theorem foldl_applyWrite_const (mats : List MMG5_Mat) (off x v : Int)
    (h : ∀ pm ∈ mats, matWrite off pm x = none ∨ matWrite off pm x = some v) :
    List.foldl (applyWrite off x) v mats = v := by
  induction mats with
  | nil => rfl
  | cons pm rest ih =>
    simp only [List.foldl_cons]
    have hacc : applyWrite off x v pm = v := by
      unfold applyWrite
      rcases h pm (List.mem_cons_self pm rest) with hn | hs
      · rw [hn]
        rfl
      · rw [hs]
        rfl
    rw [hacc]
    exact ih (fun q hq => h q (List.mem_cons_of_mem pm hq))

theorem foldl_applyWrite_last (mats : List MMG5_Mat) (off x v : Int)
    (hall : ∀ pm ∈ mats, matWrite off pm x = none ∨ matWrite off pm x = some v)
    (hex : ∃ pm ∈ mats, matWrite off pm x = some v) (acc : Int) :
    List.foldl (applyWrite off x) acc mats = v := by
  induction mats generalizing acc with
  | nil => simp at hex
  | cons pm rest ih =>
    simp only [List.foldl_cons]
    rcases hall pm (List.mem_cons_self pm rest) with hn | hs
    · have hacc : applyWrite off x acc pm = acc := by
        unfold applyWrite
        rw [hn]
        rfl
      rw [hacc]
      rcases hex with ⟨q, hq, hqs⟩
      rcases List.mem_cons.mp hq with rfl | hq'
      · rw [hn] at hqs
        exact absurd hqs (by simp)
      · exact ih (fun r hr => hall r (List.mem_cons_of_mem pm hr)) ⟨q, hq', hqs⟩ acc
    · have hacc : applyWrite off x acc pm = v := by
        unfold applyWrite
        rw [hs]
        rfl
      rw [hacc]
      exact foldl_applyWrite_const rest off x v
        (fun r hr => hall r (List.mem_cons_of_mem pm hr))

theorem matWrite_none_of (off x : Int) (pm : MMG5_Mat)
    (h0 : x ≠ pm.ref - off)
    (h1 : pm.dospl = true → x ≠ pm.rin - off ∧ x ≠ pm.rex - off) :
    matWrite off pm x = none := by
  unfold matWrite
  split_ifs with ha hb
  · exact absurd ha.2 ((h1 ha.1).2)
  · exact absurd hb.2 ((h1 hb.1).1)
  · rfl

theorem matWrite_at_rex (off : Int) (pm : MMG5_Mat) (hd : pm.dospl = true) :
    matWrite off pm (pm.rex - off) = some (4*(pm.ref+1)+MG_PLUS) := by
  unfold matWrite
  rw [if_pos ⟨hd, rfl⟩]

theorem matWrite_at_rin (off : Int) (pm : MMG5_Mat) (hd : pm.dospl = true)
    (hne : pm.rin ≠ pm.rex) :
    matWrite off pm (pm.rin - off) = some (4*(pm.ref+1)+MG_MINUS) := by
  have hx : ¬(pm.dospl = true ∧ pm.rin - off = pm.rex - off) := by
    rintro ⟨-, h⟩
    exact hne (by omega)
  unfold matWrite
  rw [if_neg hx, if_pos ⟨hd, rfl⟩]

theorem matWrite_at_ref_nosplit (off : Int) (pm : MMG5_Mat) (hd : pm.dospl = false) :
    matWrite off pm (pm.ref - off) = some 0 := by
  have h1 : ¬(pm.dospl = true ∧ pm.ref - off = pm.rex - off) := by
    rintro ⟨h, -⟩
    rw [hd] at h
    exact Bool.false_ne_true h
  have h2 : ¬(pm.dospl = true ∧ pm.ref - off = pm.rin - off) := by
    rintro ⟨h, -⟩
    rw [hd] at h
    exact Bool.false_ne_true h
  unfold matWrite
  rw [if_neg h1, if_neg h2, if_pos rfl]
  simp [hd]

theorem tag_of_packed (p c : Int) (hp : 0 ≤ p) (hc0 : 0 ≤ c) (hc : c < 4) :
    (4*(p+1)+c).tmod 4 = c := by
  rw [Int.tmod_eq_emod (by omega) (by norm_num)]
  omega

theorem parent_of_packed (p c : Int) (hp : 0 ≤ p) (hc0 : 0 ≤ c) (hc : c < 4) :
    (4*(p+1)+c).tdiv 4 - 1 = p := by
  rw [Int.tdiv_eq_ediv (by omega) (by norm_num)]
  omega

/-! #### Claim C3 -/

/-- Claim C3 counterexample: the list `matsChildAsOther` satisfies the
claim's stated hypotheses (pairwise distinct original references; no
child reference claimed by two distinct materials), yet the interior
child reference 2 of the splitting material — which is also the original
reference of the second, non-splitting material — does not get role
`MG_MINUS`: the second material's own write overwrites the child slot. -/
theorem invmat_roundtrip_refuted :
    (∀ a ∈ matsChildAsOther, ∀ b ∈ matsChildAsOther, a ≠ b → a.ref ≠ b.ref) ∧
    (∀ a ∈ matsChildAsOther, ∀ b ∈ matsChildAsOther, a ≠ b →
      a.dospl = true → b.dospl = true →
      a.rin ≠ b.rin ∧ a.rin ≠ b.rex ∧ a.rex ≠ b.rin ∧ a.rex ≠ b.rex) ∧
    ¬(MMG5_InvMat_getTag (MMG5_MultiMat_table matsChildAsOther) 2 = MG_MINUS) := by
  decide

/-- Claim C3 (amended): for a material list with nonnegative original
references, pairwise distinct original references, pairwise distinct
child references across *and within* splitting materials, and no child
reference equal to a *different* material's original reference (a child
equal to its own parent's reference stays tolerated), the built table
round-trips: splitting materials get roles `MG_MINUS`/`MG_PLUS` and
parent `ref` at their child slots, and non-splitting materials get role
`NONE` at their own slot. -/
theorem invmat_roundtrip (mats : List MMG5_Mat)
    (hnn : ∀ pm ∈ mats, 0 ≤ pm.ref)
    (href : ∀ a ∈ mats, ∀ b ∈ mats, a ≠ b → a.ref ≠ b.ref)
    (hcc : ∀ a ∈ mats, ∀ b ∈ mats, a ≠ b → a.dospl = true → b.dospl = true →
      a.rin ≠ b.rin ∧ a.rin ≠ b.rex ∧ a.rex ≠ b.rin ∧ a.rex ≠ b.rex)
    (hco : ∀ a ∈ mats, ∀ b ∈ mats, a ≠ b → a.dospl = true →
      b.ref ≠ a.rin ∧ b.ref ≠ a.rex)
    (hself : ∀ a ∈ mats, a.dospl = true → a.rin ≠ a.rex) :
    ∀ pm ∈ mats,
      (pm.dospl = true →
        MMG5_InvMat_getTag (MMG5_MultiMat_table mats) pm.rin = MG_MINUS ∧
        MMG5_InvMat_getTag (MMG5_MultiMat_table mats) pm.rex = MG_PLUS ∧
        MMG5_InvMat_getParent (MMG5_MultiMat_table mats) pm.rin = pm.ref ∧
        MMG5_InvMat_getParent (MMG5_MultiMat_table mats) pm.rex = pm.ref) ∧
      (pm.dospl = false →
        MMG5_InvMat_getTag (MMG5_MultiMat_table mats) pm.ref = 0) := by
  intro pm hpm
  have hoff : (MMG5_MultiMat_table mats).offset = (refBounds mats).2 :=
    table_offset mats
  constructor
  · intro hd
    have hslot_rin : (MMG5_MultiMat_table mats).lookup (pm.rin - (refBounds mats).2) =
        4*(pm.ref+1)+MG_MINUS := by
      rw [table_lookup_eq]
      apply foldl_applyWrite_last mats _ _ _ ?hall ?hex
      case hex =>
        exact ⟨pm, hpm, matWrite_at_rin _ pm hd (hself pm hpm hd)⟩
      case hall =>
        intro q hq
        by_cases hqpm : q = pm
        · subst hqpm
          exact Or.inr (matWrite_at_rin _ q hd (hself q hq hd))
        · refine Or.inl (matWrite_none_of _ _ q ?_ ?_)
          · have := (hco pm hpm q hq (fun h => hqpm h.symm) hd).1
            omega
          · intro hqd
            have h4 := hcc pm hpm q hq (fun h => hqpm h.symm) hd hqd
            constructor
            · have := h4.1
              omega
            · have := h4.2.1
              omega
    have hslot_rex : (MMG5_MultiMat_table mats).lookup (pm.rex - (refBounds mats).2) =
        4*(pm.ref+1)+MG_PLUS := by
      rw [table_lookup_eq]
      apply foldl_applyWrite_last mats _ _ _ ?hall ?hex
      case hex =>
        exact ⟨pm, hpm, matWrite_at_rex _ pm hd⟩
      case hall =>
        intro q hq
        by_cases hqpm : q = pm
        · subst hqpm
          exact Or.inr (matWrite_at_rex _ q hd)
        · refine Or.inl (matWrite_none_of _ _ q ?_ ?_)
          · have := (hco pm hpm q hq (fun h => hqpm h.symm) hd).2
            omega
          · intro hqd
            have h4 := hcc pm hpm q hq (fun h => hqpm h.symm) hd hqd
            constructor
            · have := h4.2.2.1
              omega
            · have := h4.2.2.2
              omega
    have hp := hnn pm hpm
    refine ⟨?_, ?_, ?_, ?_⟩
    · unfold MMG5_InvMat_getTag MMG5_InvMat_key
      rw [hoff, hslot_rin]
      exact tag_of_packed pm.ref MG_MINUS hp (by norm_num [MG_MINUS]) (by norm_num [MG_MINUS])
    · unfold MMG5_InvMat_getTag MMG5_InvMat_key
      rw [hoff, hslot_rex]
      exact tag_of_packed pm.ref MG_PLUS hp (by norm_num [MG_PLUS]) (by norm_num [MG_PLUS])
    · unfold MMG5_InvMat_getParent MMG5_InvMat_key
      rw [hoff, hslot_rin]
      exact parent_of_packed pm.ref MG_MINUS hp (by norm_num [MG_MINUS]) (by norm_num [MG_MINUS])
    · unfold MMG5_InvMat_getParent MMG5_InvMat_key
      rw [hoff, hslot_rex]
      exact parent_of_packed pm.ref MG_PLUS hp (by norm_num [MG_PLUS]) (by norm_num [MG_PLUS])
  · intro hd
    have hslot : (MMG5_MultiMat_table mats).lookup (pm.ref - (refBounds mats).2) = 0 := by
      rw [table_lookup_eq]
      apply foldl_applyWrite_last mats _ _ _ ?hall ?hex
      case hex =>
        exact ⟨pm, hpm, matWrite_at_ref_nosplit _ pm hd⟩
      case hall =>
        intro q hq
        by_cases hqpm : q = pm
        · subst hqpm
          exact Or.inr (matWrite_at_ref_nosplit _ q hd)
        · refine Or.inl (matWrite_none_of _ _ q ?_ ?_)
          · have := href q hq pm hpm hqpm
            omega
          · intro hqd
            have h2 := hco q hq pm hpm hqpm hqd
            constructor
            · have := h2.1
              omega
            · have := h2.2
              omega
    unfold MMG5_InvMat_getTag MMG5_InvMat_key
    rw [hoff, hslot]
    simp

/-- Claim C3 witness: the amended round-trip evaluated on the spec's demo
material list. -/
theorem invmat_roundtrip_witness :
    MMG5_InvMat_getTag (MMG5_MultiMat_table matsDemo) 10 = MG_MINUS ∧
    MMG5_InvMat_getTag (MMG5_MultiMat_table matsDemo) 11 = MG_PLUS ∧
    MMG5_InvMat_getParent (MMG5_MultiMat_table matsDemo) 10 = 1 ∧
    MMG5_InvMat_getParent (MMG5_MultiMat_table matsDemo) 11 = 1 ∧
    MMG5_InvMat_getTag (MMG5_MultiMat_table matsDemo) 2 = 0 := by
  have h := invmat_roundtrip matsDemo (by decide) (by decide) (by decide)
    (by decide) (by decide)
  have h1 := (h ⟨true, 1, 10, 11⟩ (by decide)).1 rfl
  have h2 := (h ⟨false, 2, 0, 0⟩ (by decide)).2 rfl
  exact ⟨h1.1, h1.2.1, h1.2.2.1, h1.2.2.2, h2⟩

/-! #### Claim C10 -/

/-- Claim C10: a reference inside the table's range that no material
declares as an original, interior-child or exterior-child reference keeps
its zero-initialized slot, so its role is `NONE` (0), its stored parent is
the `-1` sentinel, and `MMG5_getIniRef` in multi-material mode returns the
reference unchanged. -/
theorem undeclared_ref_untouched (mats : List MMG5_Mat) (ref : Int) (nmat : Nat)
    (_hrange : (MMG5_MultiMat_table mats).offset ≤ ref ∧
      ref < (MMG5_MultiMat_table mats).offset + (MMG5_MultiMat_table mats).size)
    (hun : ∀ pm ∈ mats, ref ≠ pm.ref ∧ (pm.dospl = true → ref ≠ pm.rin ∧ ref ≠ pm.rex))
    (hnm : nmat ≠ 0) :
    MMG5_InvMat_getTag (MMG5_MultiMat_table mats) ref = 0 ∧
    MMG5_InvMat_getParent (MMG5_MultiMat_table mats) ref = -1 ∧
    MMG5_getIniRef nmat (MMG5_MultiMat_table mats) ref = ref := by
  have hoff : (MMG5_MultiMat_table mats).offset = (refBounds mats).2 :=
    table_offset mats
  have hslot : (MMG5_MultiMat_table mats).lookup (ref - (refBounds mats).2) = 0 := by
    rw [table_lookup_eq]
    apply foldl_applyWrite_none
    intro pm hpm
    apply matWrite_none_of
    · have := (hun pm hpm).1
      omega
    · intro hd
      have h2 := (hun pm hpm).2 hd
      constructor
      · have := h2.1
        omega
      · have := h2.2
        omega
  have htag : MMG5_InvMat_getTag (MMG5_MultiMat_table mats) ref = 0 := by
    unfold MMG5_InvMat_getTag MMG5_InvMat_key
    rw [hoff, hslot]
    simp
  have hpar : MMG5_InvMat_getParent (MMG5_MultiMat_table mats) ref = -1 := by
    unfold MMG5_InvMat_getParent MMG5_InvMat_key
    rw [hoff, hslot]
    simp
  refine ⟨htag, hpar, ?_⟩
  unfold MMG5_getIniRef
  rw [if_neg hnm, if_pos hpar]

/-- Claim C10 witness: in the spec's demo table (range `[1, 11]`), the
undeclared reference 5 reads role `NONE`, parent `-1`, and is returned
unchanged by `MMG5_getIniRef`. -/
theorem undeclared_ref_untouched_witness :
    MMG5_InvMat_getTag (MMG5_MultiMat_table matsDemo) 5 = 0 ∧
    MMG5_InvMat_getParent (MMG5_MultiMat_table matsDemo) 5 = -1 ∧
    MMG5_getIniRef 2 (MMG5_MultiMat_table matsDemo) 5 = 5 :=
  undeclared_ref_untouched matsDemo 5 2 (by decide) (by decide) (by decide)

/-! #### Claim C4 -/

/-- Claim C4: for a material list with pairwise distinct original
references, `MMG5_isSplit` returns no-split for a declared non-splitting
reference, the declared child pair for a declared splitting reference, and
the default `MG_MINUS`/`MG_PLUS` split for an undeclared reference. -/
theorem isSplit_spec (mats : List MMG5_Mat) (ref : Int)
    (hdist : ∀ a ∈ mats, ∀ b ∈ mats, a ≠ b → a.ref ≠ b.ref) :
    (∀ pm ∈ mats, pm.ref = ref → pm.dospl = false →
       MMG5_isSplit mats ref = (false, none)) ∧
    (∀ pm ∈ mats, pm.ref = ref → pm.dospl = true →
       MMG5_isSplit mats ref = (true, some (pm.rin, pm.rex))) ∧
    ((∀ pm ∈ mats, pm.ref ≠ ref) →
       MMG5_isSplit mats ref = (true, some (MG_MINUS, MG_PLUS))) := by
  induction mats with
  | nil =>
    exact ⟨by simp, by simp, fun _ => rfl⟩
  | cons m rest ih =>
    have hdr : ∀ a ∈ rest, ∀ b ∈ rest, a ≠ b → a.ref ≠ b.ref :=
      fun a ha b hb =>
        hdist a (List.mem_cons_of_mem m ha) b (List.mem_cons_of_mem m hb)
    obtain ⟨ih1, ih2, ih3⟩ := ih hdr
    refine ⟨?_, ?_, ?_⟩
    · intro pm hpm hr hd
      rcases List.mem_cons.mp hpm with rfl | hpm'
      · simp [MMG5_isSplit, hr, hd]
      · by_cases hmr : m.ref = ref
        · by_cases hpe : pm = m
          · subst hpe
            simp [MMG5_isSplit, hmr, hd]
          · exact absurd (hr.trans hmr.symm)
              (hdist pm (List.mem_cons_of_mem m hpm') m (List.mem_cons_self m rest) hpe)
        · rw [show MMG5_isSplit (m :: rest) ref = MMG5_isSplit rest ref from by
            simp [MMG5_isSplit, hmr]]
          exact ih1 pm hpm' hr hd
    · intro pm hpm hr hd
      rcases List.mem_cons.mp hpm with rfl | hpm'
      · simp [MMG5_isSplit, hr, hd]
      · by_cases hmr : m.ref = ref
        · by_cases hpe : pm = m
          · subst hpe
            simp [MMG5_isSplit, hmr, hd]
          · exact absurd (hr.trans hmr.symm)
              (hdist pm (List.mem_cons_of_mem m hpm') m (List.mem_cons_self m rest) hpe)
        · rw [show MMG5_isSplit (m :: rest) ref = MMG5_isSplit rest ref from by
            simp [MMG5_isSplit, hmr]]
          exact ih2 pm hpm' hr hd
    · intro h
      have hmr : m.ref ≠ ref := h m (List.mem_cons_self m rest)
      rw [show MMG5_isSplit (m :: rest) ref = MMG5_isSplit rest ref from by
        simp [MMG5_isSplit, hmr]]
      exact ih3 (fun pm hp => h pm (List.mem_cons_of_mem m hp))

/-- Claim C4 witness: the spec's end-to-end scenario — declared splitting
reference 1 yields its children (10, 11), declared non-splitting
reference 2 yields no split, and undeclared reference 99 yields the
default `MG_MINUS`/`MG_PLUS` pair. -/
theorem isSplit_spec_witness :
    MMG5_isSplit matsDemo 1 = (true, some (10, 11)) ∧
    MMG5_isSplit matsDemo 2 = (false, none) ∧
    MMG5_isSplit matsDemo 99 = (true, some (MG_MINUS, MG_PLUS)) :=
  ⟨(isSplit_spec matsDemo 1 (by decide)).2.1 ⟨true, 1, 10, 11⟩ (by decide) rfl rfl,
   (isSplit_spec matsDemo 2 (by decide)).1 ⟨false, 2, 0, 0⟩ (by decide) rfl rfl,
   (isSplit_spec matsDemo 99 (by decide)).2.2 (by decide)⟩

/-! #### Claim C8 -/

/-- The lookup indices (expressed as references) that one
`MMG5_InvMat_set` call for material `pm` stores to, in write order. -/
def matTargets (pm : MMG5_Mat) : List Int :=
  pm.ref :: (if pm.dospl then [pm.rin, pm.rex] else [])

/-- All stores performed while filling the table, in order. -/
def writeTargets (mats : List MMG5_Mat) : List Int :=
  mats.flatMap matTargets

theorem mem_matTargets (pm : MMG5_Mat) (r : Int) :
    r ∈ matTargets pm ↔
      r = pm.ref ∨ (pm.dospl = true ∧ (r = pm.rin ∨ r = pm.rex)) := by
  unfold matTargets
  by_cases hd : pm.dospl = true <;> simp [hd]

theorem matTargets_count_two (pm : MMG5_Mat) (r : Int)
    (h : 2 ≤ (matTargets pm).count r) :
    (pm.dospl = true ∧ (pm.rin = r ∨ pm.rex = r) ∧ pm.ref = r) ∨
    (pm.dospl = true ∧ pm.rin = r ∧ pm.rex = r) := by
  unfold matTargets at h
  by_cases hd : pm.dospl = true
  · simp only [hd, if_true] at h
    by_cases h1 : pm.ref = r <;> by_cases h2 : pm.rin = r <;> by_cases h3 : pm.rex = r <;>
      simp [List.count_cons, h1, h2, h3] at h <;> tauto
  · rw [if_neg hd] at h
    by_cases h1 : pm.ref = r <;> simp [List.count_cons, h1] at h

theorem overwrite_characterization : ∀ (mats : List MMG5_Mat) (r : Int),
    List.Pairwise matCompat mats → 2 ≤ (writeTargets mats).count r →
    ((∃ a ∈ mats, a.dospl = true ∧ (a.rin = r ∨ a.rex = r) ∧ ∃ b ∈ mats, b.ref = r) ∨
     (∃ a ∈ mats, a.dospl = true ∧ a.rin = r ∧ a.rex = r)) := by
  intro mats
  induction mats with
  | nil =>
    intro r hpw how
    simp [writeTargets] at how
  | cons m rest ih =>
    intro r hpw how
    rw [List.pairwise_cons] at hpw
    obtain ⟨hm, hrest⟩ := hpw
    rw [show writeTargets (m :: rest) = matTargets m ++ writeTargets rest from by
      simp [writeTargets], List.count_append] at how
    by_cases h2 : 2 ≤ (matTargets m).count r
    · rcases matTargets_count_two m r h2 with ⟨hd, hch, hrf⟩ | ⟨hd, hi, he⟩
      · exact Or.inl ⟨m, List.mem_cons_self m rest, hd, hch,
          m, List.mem_cons_self m rest, hrf⟩
      · exact Or.inr ⟨m, List.mem_cons_self m rest, hd, hi, he⟩
    · by_cases h1 : 1 ≤ (matTargets m).count r
      · have hmem1 : r ∈ matTargets m := List.count_pos_iff.mp (by omega)
        have hmem2 : r ∈ writeTargets rest := List.count_pos_iff.mp (by omega)
        obtain ⟨b, hb, hbt⟩ := List.mem_flatMap.mp hmem2
        have hR : matCompat m b := hm b hb
        rcases (mem_matTargets m r).mp hmem1 with hmr | ⟨hmd, hmc⟩
        · rcases (mem_matTargets b r).mp hbt with hbr | ⟨hbd, hbc⟩
          · exact absurd (hmr.symm.trans hbr) hR.1
          · refine Or.inl ⟨b, List.mem_cons_of_mem m hb, hbd, ?_,
              m, List.mem_cons_self m rest, hmr.symm⟩
            rcases hbc with h | h
            · exact Or.inl h.symm
            · exact Or.inr h.symm
        · rcases (mem_matTargets b r).mp hbt with hbr | ⟨hbd, hbc⟩
          · refine Or.inl ⟨m, List.mem_cons_self m rest, hmd, ?_,
              b, List.mem_cons_of_mem m hb, hbr.symm⟩
            rcases hmc with h | h
            · exact Or.inl h.symm
            · exact Or.inr h.symm
          · have h4 := hR.2 hmd hbd
            rcases hmc with h5 | h5 <;> rcases hbc with h6 | h6
            · exact absurd (h5.symm.trans h6) h4.1
            · exact absurd (h5.symm.trans h6) h4.2.1
            · exact absurd (h5.symm.trans h6) h4.2.2.1
            · exact absurd (h5.symm.trans h6) h4.2.2.2
      · have hge : 2 ≤ (writeTargets rest).count r := by omega
        rcases ih r hrest hge with ⟨a, ha, hd, hch, b, hb, hbr⟩ | ⟨a, ha, hrest2⟩
        · exact Or.inl ⟨a, List.mem_cons_of_mem m ha, hd, hch,
            b, List.mem_cons_of_mem m hb, hbr⟩
        · exact Or.inr ⟨a, List.mem_cons_of_mem m ha, hrest2⟩

/-- Claim C8 counterexample: the list `matsChildAsOther` passes the
spec-modelled validation (no two distinct materials share a child
reference), yet its construction overwrites the slot of reference 2
twice — once as the splitting material's interior child, once as the
second material's own original reference — which is not the documented
self-parent overwrite case (no splitting material has `ref = 2`). -/
theorem multimat_overwrite_refuted :
    MMG5_MultiMat_validate matsChildAsOther = true ∧
    2 ≤ (writeTargets matsChildAsOther).count 2 ∧
    ¬(∃ a ∈ matsChildAsOther, a.dospl = true ∧ a.ref = 2 ∧
        (a.rin = 2 ∨ a.rex = 2)) := by
  decide

/-- Claim C8 (amended): with the spec-modelled validation, a material list
in which two distinct materials claim the same child reference is rejected
before the table is built (no table exists for any lookup to succeed);
and for any accepted list, a slot written more than once is necessarily
either a child reference that coincides with some material's original
reference (its own parent's — the documented case — or a different
material's), or the shared interior/exterior child of a single material. -/
theorem multimat_build_validation :
    (∀ (mats : List MMG5_Mat) (a b : MMG5_Mat), a ∈ mats → b ∈ mats → a ≠ b →
      a.dospl = true → b.dospl = true →
      (a.rin = b.rin ∨ a.rin = b.rex ∨ a.rex = b.rin ∨ a.rex = b.rex) →
      MMG5_MultiMat_build mats = none) ∧
    (∀ (mats : List MMG5_Mat) (r : Int), MMG5_MultiMat_validate mats = true →
      2 ≤ (writeTargets mats).count r →
      ((∃ a ∈ mats, a.dospl = true ∧ (a.rin = r ∨ a.rex = r) ∧ ∃ b ∈ mats, b.ref = r) ∨
       (∃ a ∈ mats, a.dospl = true ∧ a.rin = r ∧ a.rex = r))) := by
  constructor
  · intro mats a b ha hb hne hda hdb hsh
    unfold MMG5_MultiMat_build
    rw [if_neg]
    intro hv
    have hpw : List.Pairwise matCompat mats := by
      have := of_decide_eq_true hv
      exact this
    have hR : matCompat a b :=
      List.Pairwise.forall (fun x y h => matCompat_symm h) hpw ha hb hne
    have h4 := hR.2 hda hdb
    rcases hsh with h | h | h | h
    · exact h4.1 h
    · exact h4.2.1 h
    · exact h4.2.2.1 h
    · exact h4.2.2.2 h
  · intro mats r hv how
    exact overwrite_characterization mats r (of_decide_eq_true hv) how

/-- Claim C8 witness: the list `matsDupChild` (two distinct splitting
materials sharing interior child 10) is rejected, and the accepted list
`matsChildAsOther` exhibits an overwrite at reference 2 of the
characterized kind. -/
theorem multimat_build_validation_witness :
    MMG5_MultiMat_build matsDupChild = none ∧
    ((∃ a ∈ matsChildAsOther, a.dospl = true ∧ (a.rin = (2 : Int) ∨ a.rex = 2) ∧
        ∃ b ∈ matsChildAsOther, b.ref = 2) ∨
     (∃ a ∈ matsChildAsOther, a.dospl = true ∧ a.rin = (2 : Int) ∧ a.rex = 2)) :=
  ⟨multimat_build_validation.1 matsDupChild ⟨true, 1, 10, 11⟩ ⟨true, 2, 10, 12⟩
      (by decide) (by decide) (by decide) rfl rfl (Or.inl rfl),
   multimat_build_validation.2 matsChildAsOther 2 (by decide) (by decide)⟩

/-! ### Part B: anisotropic metric interpolation (`src/mmg3d/intmet.c`)

Real (`double`) arithmetic is modelled exactly over the rationals. -/

/-- Symmetric 3x3 tensor by its 6 independent entries, in the mmg storage
order `m0 = M11, m1 = M12, m2 = M13, m3 = M22, m4 = M23, m5 = M33`. -/
structure SymMat3 where
  m0 : ℚ
  m1 : ℚ
  m2 : ℚ
  m3 : ℚ
  m4 : ℚ
  m5 : ℚ
deriving DecidableEq

/-- Determinant of a symmetric 3x3 tensor, expanded along the first row. -/
def detSym (m : SymMat3) : ℚ :=
  m.m0*(m.m3*m.m5 - m.m4*m.m4) - m.m1*(m.m1*m.m5 - m.m2*m.m4)
    + m.m2*(m.m1*m.m4 - m.m3*m.m2)

/-- Modelled from the spec: `MMG5_invmat` (`common/tools.c`, not among the
provided sources) inverts a symmetric 3x3 tensor given by its 6 entries
and fails when the matrix is singular; over exact rational arithmetic the
singularity test is the vanishing of the determinant, and the inverse is
the adjugate divided by the determinant. -/
def MMG5_invmat (m : SymMat3) : Option SymMat3 :=
  if detSym m = 0 then none
  else some
    { m0 := (m.m3*m.m5 - m.m4*m.m4) / detSym m
      m1 := -(m.m1*m.m5 - m.m2*m.m4) / detSym m
      m2 := (m.m1*m.m4 - m.m3*m.m2) / detSym m
      m3 := (m.m0*m.m5 - m.m2*m.m2) / detSym m
      m4 := -(m.m0*m.m4 - m.m1*m.m2) / detSym m
      m5 := (m.m0*m.m3 - m.m1*m.m1) / detSym m }

/-- The spec's `blend(a, b, t)`: entrywise affine combination of two
tensors. -/
def blend2 (a b : SymMat3) (t : ℚ) : SymMat3 :=
  { m0 := (1-t)*a.m0 + t*b.m0
    m1 := (1-t)*a.m1 + t*b.m1
    m2 := (1-t)*a.m2 + t*b.m2
    m3 := (1-t)*a.m3 + t*b.m3
    m4 := (1-t)*a.m4 + t*b.m4
    m5 := (1-t)*a.m5 + t*b.m5 }

/-- Entrywise barycentric combination of four tensors. -/
def blend4 (c0 c1 c2 c3 : ℚ) (a b c d : SymMat3) : SymMat3 :=
  { m0 := c0*a.m0 + c1*b.m0 + c2*c.m0 + c3*d.m0
    m1 := c0*a.m1 + c1*b.m1 + c2*c.m1 + c3*d.m1
    m2 := c0*a.m2 + c1*b.m2 + c2*c.m2 + c3*d.m2
    m3 := c0*a.m3 + c1*b.m3 + c2*c.m3 + c3*d.m3
    m4 := c0*a.m4 + c1*b.m4 + c2*c.m4 + c3*d.m4
    m5 := c0*a.m5 + c1*b.m5 + c2*c.m5 + c3*d.m5 }

/-- Embedding of `_MMG5_intregvolmet`: invert both endpoint tensors (fail
if either inversion fails), blend the inverses entrywise with parameter
`t` (the `for` loop over the 6 entries), invert the blend back (fail if
that inversion fails), and return the result; the output buffer `mp` is
written only on success, which the `Option` return models. -/
def MMG5_intregvolmet (ma mb : SymMat3) (t : ℚ) : Option SymMat3 :=
  match MMG5_invmat ma, MMG5_invmat mb with
  | some mai, some mbi =>
    MMG5_invmat
      { m0 := (1-t)*mai.m0 + t*mbi.m0
        m1 := (1-t)*mai.m1 + t*mbi.m1
        m2 := (1-t)*mai.m2 + t*mbi.m2
        m3 := (1-t)*mai.m3 + t*mbi.m3
        m4 := (1-t)*mai.m4 + t*mbi.m4
        m5 := (1-t)*mai.m5 + t*mbi.m5 }
  | _, _ => none

/-- Embedding of `_MMG5_interp4barintern`: invert the four vertex tensors
(fail if any inversion fails), take the barycentric-weighted entrywise sum
of the inverses, invert the sum back (fail on failure); the metric slot at
the new point is written only on success. -/
def MMG5_interp4barintern (c0 c1 c2 c3 : ℚ) (d0 d1 d2 d3 : SymMat3) :
    Option SymMat3 :=
  match MMG5_invmat d0, MMG5_invmat d1, MMG5_invmat d2, MMG5_invmat d3 with
  | some i0, some i1, some i2, some i3 =>
    MMG5_invmat
      { m0 := c0*i0.m0 + c1*i1.m0 + c2*i2.m0 + c3*i3.m0
        m1 := c0*i0.m1 + c1*i1.m1 + c2*i2.m1 + c3*i3.m1
        m2 := c0*i0.m2 + c1*i1.m2 + c2*i2.m2 + c3*i3.m2
        m3 := c0*i0.m3 + c1*i1.m3 + c2*i2.m3 + c3*i3.m3
        m4 := c0*i0.m4 + c1*i1.m4 + c2*i2.m4 + c3*i3.m4
        m5 := c0*i0.m5 + c1*i1.m5 + c2*i2.m5 + c3*i3.m5 }
  | _, _, _, _ => none

/-- Modelled from the spec: the point tag bits (`MG_CRN`/`MG_REQ` combined
by the `MG_SIN` macro, `MG_NOM`, `MG_GEO`), defined in `mmgcommon.h` which
is not among the provided sources, are rendered as the spec's abstract
per-point flags: singular, non-manifold, ridge. -/
structure PointTag where
  sin : Bool
  nom : Bool
  geo : Bool
deriving DecidableEq

/-- Endpoint tensor resolution of `_MMG5_intvolmet`: singular or
non-manifold points use their stored metric; ridge points use the
`_MMG5_moymet` averaged metric (an external collaborator whose outcome is
passed in as `moy`, `none` meaning it failed); ordinary points use their
stored metric. -/
def resolveMetric (tag : PointTag) (stored : SymMat3) (moy : Option SymMat3) :
    Option SymMat3 :=
  if tag.sin || tag.nom then some stored
  else if tag.geo then moy
  else some stored

/-- Outcome of one `_MMG5_intvolmet` call: C return 0, process abort by
the `exit(0)` diagnostic, or C return 1 carrying the final contents of the
new point's metric slot `&met->m[6*ip]` (which the output buffer `mr`
aliases). -/
inductive VolmetResult where
  | fail0 : VolmetResult
  | exit0 : VolmetResult
  | ok1 : SymMat3 → VolmetResult
deriving DecidableEq

/-- Embedding of `_MMG5_intvolmet`: resolve both endpoint tensors
(returning 0 when a `_MMG5_moymet` call fails), run `_MMG5_intregvolmet`
with its status discarded — the slot keeps its previous contents `mrOld`
when the interpolation failed — then run the `fabs(mr[5]) < 1e-6`
diagnostic, which calls `exit(0)` on a near-zero last entry and otherwise
returns 1. -/
def MMG5_intvolmet (tag1 tag2 : PointTag) (m1s m2s : SymMat3)
    (moy1 moy2 : Option SymMat3) (s : ℚ) (mrOld : SymMat3) : VolmetResult :=
  match resolveMetric tag1 m1s moy1 with
  | none => VolmetResult.fail0
  | some m1 =>
    match resolveMetric tag2 m2s moy2 with
    | none => VolmetResult.fail0
    | some m2 =>
      let mr := (MMG5_intregvolmet m1 m2 s).getD mrOld
      if |mr.m5| < 1/1000000 then VolmetResult.exit0 else VolmetResult.ok1 mr

/-- Modelled from the spec: the constant table `_MMG5_ifar` (`mmg3d.h`,
not among the provided sources) giving, for each of a tetrahedron's six
local edges, its two adjacent local faces. -/
def MMG5_ifar : Fin 6 → Fin 2 → Fin 4 :=
  ![![2, 3], ![1, 3], ![1, 2], ![0, 3], ![0, 2], ![0, 1]]

/-- Embedding of `_MMG5_intregmet` for a boundary (non-ridge) edge `i` of
a tetrahedron: pick whichever of the edge's two adjacent faces carries the
boundary tag and delegate to `_MMG5_interpreg_ani` (an external
collaborator on the 2-D boundary triangle, passed in as `interpreg`; its
`Option` result models its 1/0 status and the write to `mr`).  When
neither face is boundary-tagged, return the C sentinel `-1` without
touching `mr`.  The result is the C return value paired with the write to
the output buffer (`none` = not written by this routine). -/
def MMG5_intregmet (ftag : Fin 4 → Bool) (i : Fin 6)
    (interpreg : Fin 4 → Option SymMat3) : Int × Option SymMat3 :=
  if ftag (MMG5_ifar i 0) then
    match interpreg (MMG5_ifar i 0) with
    | some mr => (1, some mr)
    | none => (0, none)
  else if ftag (MMG5_ifar i 1) then
    match interpreg (MMG5_ifar i 1) with
    | some mr => (1, some mr)
    | none => (0, none)
  else (-1, none)

/-! Concrete tensors used by Part B witnesses and counterexamples. -/

def zeroMat : SymMat3 := ⟨0, 0, 0, 0, 0, 0⟩

def idMat : SymMat3 := ⟨1, 0, 0, 1, 0, 1⟩

def staleSlot : SymMat3 := ⟨0, 0, 0, 0, 0, 1⟩

def ordTag : PointTag := ⟨false, false, false⟩

/-! #### Claim C1 -/

/-- Claim C1: evaluation of `_MMG5_intvolmet` at the failing input.  On an
internal edge whose first endpoint carries the singular zero tensor (its
inversion fails) and whose new-point slot previously held `staleSlot`, the
code returns 1 (success) with the slot unmodified, instead of surfacing
the inversion failure as FAIL (0) as the claim requires; the slot-level
part of the claim (no write on failure) does hold. -/
theorem intvolmet_ignores_inversion_failure :
    MMG5_invmat zeroMat = none ∧
    MMG5_intregvolmet zeroMat idMat (1/2) = none ∧
    MMG5_intvolmet ordTag ordTag zeroMat idMat none none (1/2) staleSlot =
      VolmetResult.ok1 staleSlot := by
  have hz : MMG5_invmat zeroMat = none := by
    simp [MMG5_invmat, detSym, zeroMat]
  have hr : MMG5_intregvolmet zeroMat idMat (1/2) = none := by
    unfold MMG5_intregvolmet
    rw [hz]
  refine ⟨hz, hr, ?_⟩
  unfold MMG5_intvolmet
  rw [show resolveMetric ordTag zeroMat none = some zeroMat from rfl,
    show resolveMetric ordTag idMat none = some idMat from rfl]
  simp only [hr, Option.getD_none]
  rw [if_neg]
  rw [show staleSlot.m5 = 1 from rfl, abs_one]
  norm_num

/-! #### Claim C2 -/

/-- Claim C2: whenever every tensor inversion succeeds, the anisotropic
interpolation result is the inverse of the convex combination of the
inverses of the resolved input tensors — entrywise blending with
parameter `s` along an edge (`_MMG5_intregvolmet`), and the
barycentric-weighted entrywise sum inside a tetrahedron
(`_MMG5_interp4barintern`). -/
theorem interp_blends_in_inverse_space :
    (∀ (ma mb : SymMat3) (t : ℚ) (mai mbi mr : SymMat3),
      MMG5_invmat ma = some mai → MMG5_invmat mb = some mbi →
      MMG5_invmat (blend2 mai mbi t) = some mr →
      MMG5_intregvolmet ma mb t = some mr) ∧
    (∀ (c0 c1 c2 c3 : ℚ) (d0 d1 d2 d3 i0 i1 i2 i3 mr : SymMat3),
      MMG5_invmat d0 = some i0 → MMG5_invmat d1 = some i1 →
      MMG5_invmat d2 = some i2 → MMG5_invmat d3 = some i3 →
      MMG5_invmat (blend4 c0 c1 c2 c3 i0 i1 i2 i3) = some mr →
      MMG5_interp4barintern c0 c1 c2 c3 d0 d1 d2 d3 = some mr) := by
  constructor
  · intro ma mb t mai mbi mr h1 h2 h3
    unfold MMG5_intregvolmet
    rw [h1, h2]
    exact h3
  · intro c0 c1 c2 c3 d0 d1 d2 d3 i0 i1 i2 i3 mr h0 h1 h2 h3 h4
    unfold MMG5_interp4barintern
    rw [h0, h1, h2, h3]
    exact h4

/-- Claim C2 witness: both interpolation paths evaluated with every input
tensor equal to the identity (edge parameter 1, barycentric weights
`(1,0,0,0)`), where every inversion succeeds and the result is again the
identity. -/
theorem interp_blends_in_inverse_space_witness :
    MMG5_intregvolmet idMat idMat 1 = some idMat ∧
    MMG5_interp4barintern 1 0 0 0 idMat idMat idMat idMat = some idMat :=
  ⟨interp_blends_in_inverse_space.1 idMat idMat 1 idMat idMat idMat
      (by simp [MMG5_invmat, detSym, idMat])
      (by simp [MMG5_invmat, detSym, idMat])
      (by simp [MMG5_invmat, detSym, blend2, idMat]),
   interp_blends_in_inverse_space.2 1 0 0 0
      idMat idMat idMat idMat idMat idMat idMat idMat idMat
      (by simp [MMG5_invmat, detSym, idMat])
      (by simp [MMG5_invmat, detSym, idMat])
      (by simp [MMG5_invmat, detSym, idMat])
      (by simp [MMG5_invmat, detSym, idMat])
      (by simp [MMG5_invmat, detSym, blend4, idMat])⟩

/-! #### Claim C9 -/

/-- Claim C9: for a boundary-classified edge of a tetrahedron neither of
whose two adjacent faces carries the boundary tag, `_MMG5_intregmet`
returns the distinguished defer sentinel `-1` — different from both the
success value 1 and the failure value 0 — and does not write the new
point's metric slot. -/
theorem intregmet_defers_without_boundary_face (ftag : Fin 4 → Bool) (i : Fin 6)
    (interpreg : Fin 4 → Option SymMat3)
    (h0 : ftag (MMG5_ifar i 0) = false) (h1 : ftag (MMG5_ifar i 1) = false) :
    MMG5_intregmet ftag i interpreg = (-1, none) ∧
    (-1 : Int) ≠ 1 ∧ (-1 : Int) ≠ 0 := by
  refine ⟨?_, by decide, by decide⟩
  unfold MMG5_intregmet
  rw [h0, h1]
  simp

/-- Claim C9 witness: the defer outcome evaluated with no face
boundary-tagged on edge 0. -/
theorem intregmet_defers_without_boundary_face_witness :
    MMG5_intregmet (fun _ => false) 0 (fun _ => some idMat) = (-1, none) ∧
    (-1 : Int) ≠ 1 ∧ (-1 : Int) ≠ 0 :=
  intregmet_defers_without_boundary_face (fun _ => false) 0 (fun _ => some idMat)
    rfl rfl

end Mmg
